import Mathlib

/-!
# Verification of the Langevin sampling notebooks

Shallow embedding of the two sampling notebooks (the MYULA deconvolution
notebook and the SK-ROCK deconvolution notebook) and proofs of the spec's
claims about them.

States (images) are modelled as real-valued arrays `ι → ℝ` over an
arbitrary index type `ι`; `torch` pointwise arithmetic becomes `Pi`
arithmetic, scalar–array products become `•`, and a fresh standard-normal
draw `torch.randn_like(X)` becomes an explicit argument `Z`.  External
collaborators that live in the (absent) `sampling_tools` module — the blur
operators `A`/`AT`, the total-variation value `tv(Grad_Image(·))`, and the
proximal solver `chambolle_prox_TV` — are abstract parameters.
`math.sqrt` raises a `ValueError` on negative input, so the one place
where the notebooks call it on a possibly-negative quantity (the SK-ROCK
noise scale) is modelled with an `Option`: `none` is the Python exception.
-/

namespace SamplingTutorials

/-! ## The sampling driver loop (both notebooks, structurally identical)

The MYULA notebook's loop is

```
for i_x in range(maxit):
    X = ULA_kernel(X, delta)
    if i_x == burnin:
        post_meanvar = welford(X); absfouriercoeff = welford(...); count = 0
    elif i_x > burnin:
        post_meanvar.update(X); absfouriercoeff.update(...)
        nrmse_values.append(...); psnr_values.append(...)
        ssim_values.append(...); log_pi_trace.append(...)
        if count == thinning_step-1:
            MC_X.append(X); count = 0
        else:
            count += 1
```

The loop is polymorphic in the state: it never inspects `X`, it only
threads it through the kernel and hands it to the accumulators, the metric
series and the trace.  We model the kernel as an iteration-indexed
function `ℕ → α → α` (the index absorbs the fresh Gaussian noise drawn
inside each kernel call), the welford accumulators by the ordered list of
states they incorporate, and the four metric series (which are always
appended to together) by a single entry counter. -/

structure RunState (α : Type*) where
  X : α
  count : ℕ
  welf : List α
  metrics : ℕ
  trace : List α

/-- One iteration `i` of the sampling loop body. -/
def loopBody {α : Type*} (kernel : ℕ → α → α) (burnin thin : ℕ)
    (st : RunState α) (i : ℕ) : RunState α :=
  let Xn := kernel i st.X
  if i = burnin then
    { X := Xn, count := 0, welf := [Xn], metrics := st.metrics, trace := st.trace }
  else if burnin < i then
    if st.count = thin - 1 then
      { X := Xn, count := 0, welf := st.welf ++ [Xn],
        metrics := st.metrics + 1, trace := st.trace ++ [Xn] }
    else
      { X := Xn, count := st.count + 1, welf := st.welf ++ [Xn],
        metrics := st.metrics + 1, trace := st.trace }
  else
    { st with X := Xn }

/-- The sampling loop `for i_x in range(maxit)` started from the
observation `X0` (`X = y.clone()`), with empty metric series and trace. -/
def runLoop {α : Type*} (kernel : ℕ → α → α) (burnin thin maxit : ℕ)
    (X0 : α) : RunState α :=
  (List.range maxit).foldl (loopBody kernel burnin thin) ⟨X0, 0, [], 0, []⟩

/-- The chain state after `m` kernel applications. -/
def chainX {α : Type*} (kernel : ℕ → α → α) (X0 : α) (m : ℕ) : α :=
  (List.range m).foldl (fun x i => kernel i x) X0

/-- Source: `thinning_step = np.int64(maxit/n_samples)`; Python float division
truncated to an integer (for nonnegative arguments, the floor). -/
noncomputable def thinning_step (maxit n_samples : ℕ) : ℕ :=
  ⌊(maxit : ℝ) / (n_samples : ℝ)⌋₊

section LoopLemmas

variable {α : Type*} (k : ℕ → α → α) (b t : ℕ) (X0 : α)

theorem runLoop_succ (m : ℕ) :
    runLoop k b t (m + 1) X0 = loopBody k b t (runLoop k b t m X0) m := by
  simp [runLoop, List.range_succ]

theorem loopBody_X (st : RunState α) (i : ℕ) :
    (loopBody k b t st i).X = k i st.X := by
  unfold loopBody
  split_ifs <;> rfl

theorem runLoop_X (m : ℕ) : (runLoop k b t m X0).X = chainX k X0 m := by
  induction m with
  | zero => rfl
  | succ n ih =>
    rw [runLoop_succ, loopBody_X, ih]
    simp [chainX, List.range_succ]

/-- Before the burn-in iteration has run, nothing has been recorded. -/
theorem runLoop_pre_burnin (m : ℕ) (hm : m ≤ b) :
    (runLoop k b t m X0).count = 0 ∧ (runLoop k b t m X0).welf = [] ∧
      (runLoop k b t m X0).metrics = 0 ∧ (runLoop k b t m X0).trace = [] := by
  induction m with
  | zero => exact ⟨rfl, rfl, rfl, rfl⟩
  | succ n ih =>
    obtain ⟨h1, h2, h3, h4⟩ := ih (le_of_lt (Nat.lt_of_succ_le hm))
    have hne : n ≠ b := Nat.ne_of_lt (Nat.lt_of_succ_le hm)
    have hnl : ¬ b < n := Nat.not_lt.2 (le_of_lt (Nat.lt_of_succ_le hm))
    rw [runLoop_succ]
    unfold loopBody
    simp only [if_neg hne, if_neg hnl]
    exact ⟨h1, h2, h3, h4⟩

/-- The post-burn-in bookkeeping of the loop: the accumulator inputs are
exactly the states produced at iterations `b, b+1, …, m-1`; each metric
series has one entry per strictly-post-burn-in iteration; and the thinning
counter/trace follow the counter automaton of the source. -/
theorem runLoop_spec (ht : 1 ≤ t) :
    ∀ m, b < m →
      (runLoop k b t m X0).welf
          = (List.range' b (m - b)).map (fun i => chainX k X0 (i + 1)) ∧
        (runLoop k b t m X0).metrics = m - b - 1 ∧
        (runLoop k b t m X0).count = (m - b - 1) % t ∧
        (runLoop k b t m X0).trace.length = (m - b - 1) / t := by
  intro m
  induction m with
  | zero => intro h; exact absurd h (Nat.not_lt_zero b)
  | succ n ih =>
    intro hbn
    have hXn : k n (runLoop k b t n X0).X = chainX k X0 (n + 1) := by
      rw [runLoop_X]; simp [chainX, List.range_succ]
    rcases Nat.lt_or_ge b n with hlt | hge
    · -- n > b : the `elif i_x > burnin` branch runs at iteration n
      obtain ⟨hw, hm, hc, htr⟩ := ih hlt
      have hne : n ≠ b := Nat.ne_of_gt hlt
      have hsub2 : n + 1 - b - 1 = (n - b - 1) + 1 := by omega
      have hrange : List.range' b (n + 1 - b) = List.range' b (n - b) ++ [n] := by
        have h1 : n + 1 - b = (n - b) + 1 := by omega
        have h2 : b + (n - b) = n := by omega
        rw [h1, List.range'_1_concat, h2]
      by_cases hcnt : (runLoop k b t n X0).count = t - 1
      · -- counter full: append to the trace, reset the counter
        have hstep : runLoop k b t (n + 1) X0 =
            { X := k n (runLoop k b t n X0).X, count := 0,
              welf := (runLoop k b t n X0).welf ++ [k n (runLoop k b t n X0).X],
              metrics := (runLoop k b t n X0).metrics + 1,
              trace := (runLoop k b t n X0).trace ++ [k n (runLoop k b t n X0).X] } := by
          rw [runLoop_succ]
          unfold loopBody
          simp only [if_neg hne, if_pos hlt, if_pos hcnt]
        have hmod : (n - b - 1) % t = t - 1 := hc ▸ hcnt
        have hdvd : t ∣ (n - b - 1) + 1 := by
          have h0 : ((n - b - 1) + 1) % t = 0 := by
            rcases Nat.lt_or_ge 1 t with h1 | h1
            · rw [Nat.add_mod, hmod, Nat.mod_eq_of_lt h1]
              have h2 : t - 1 + 1 = t := by omega
              rw [h2, Nat.mod_self]
            · have h2 : t = 1 := by omega
              subst h2
              omega
          exact Nat.dvd_iff_mod_eq_zero.2 h0
        refine ⟨?_, ?_, ?_, ?_⟩
        · rw [hstep]
          show (runLoop k b t n X0).welf ++ [k n (runLoop k b t n X0).X] = _
          rw [hrange, List.map_append, ← hw, hXn]
          rfl
        · rw [hstep]
          show (runLoop k b t n X0).metrics + 1 = _
          omega
        · rw [hstep]
          show 0 = (n + 1 - b - 1) % t
          rw [hsub2]
          exact (Nat.dvd_iff_mod_eq_zero.1 hdvd).symm
        · rw [hstep]
          show ((runLoop k b t n X0).trace ++ _).length = _
          rw [List.length_append, htr, hsub2, Nat.succ_div, if_pos hdvd]
          rfl
      · -- counter not yet full: no trace entry, increment the counter
        have hstep : runLoop k b t (n + 1) X0 =
            { X := k n (runLoop k b t n X0).X,
              count := (runLoop k b t n X0).count + 1,
              welf := (runLoop k b t n X0).welf ++ [k n (runLoop k b t n X0).X],
              metrics := (runLoop k b t n X0).metrics + 1,
              trace := (runLoop k b t n X0).trace } := by
          rw [runLoop_succ]
          unfold loopBody
          simp only [if_neg hne, if_pos hlt, if_neg hcnt]
        have hmodne : (n - b - 1) % t ≠ t - 1 := hc ▸ hcnt
        have hlt2 : (n - b - 1) % t + 1 < t := by
          have := Nat.mod_lt (n - b - 1) (show 0 < t by omega)
          omega
        have ht2 : 1 < t := by omega
        have hmod : ((n - b - 1) + 1) % t = (n - b - 1) % t + 1 := by
          rw [Nat.add_mod, Nat.mod_eq_of_lt ht2, Nat.mod_eq_of_lt hlt2]
        have hndvd : ¬ t ∣ (n - b - 1) + 1 := by
          intro hdvd
          have := Nat.dvd_iff_mod_eq_zero.1 hdvd
          omega
        refine ⟨?_, ?_, ?_, ?_⟩
        · rw [hstep]
          show (runLoop k b t n X0).welf ++ [k n (runLoop k b t n X0).X] = _
          rw [hrange, List.map_append, ← hw, hXn]
          rfl
        · rw [hstep]
          show (runLoop k b t n X0).metrics + 1 = _
          omega
        · rw [hstep]
          show (runLoop k b t n X0).count + 1 = _
          rw [hc, hsub2, hmod]
        · rw [hstep]
          show (runLoop k b t n X0).trace.length = _
          rw [htr, hsub2, Nat.succ_div, if_neg hndvd]
          rfl
    · -- n = b : the burn-in iteration seeds the accumulators
      have hnb : n = b := by omega
      obtain ⟨h1, h2, h3, h4⟩ := runLoop_pre_burnin k b t X0 n (le_of_eq hnb)
      have hstep : runLoop k b t (n + 1) X0 =
          { X := k n (runLoop k b t n X0).X, count := 0,
            welf := [k n (runLoop k b t n X0).X],
            metrics := (runLoop k b t n X0).metrics,
            trace := (runLoop k b t n X0).trace } := by
        rw [runLoop_succ]
        unfold loopBody
        simp only [if_pos hnb]
      have hsub : n + 1 - b = 1 := by omega
      refine ⟨?_, ?_, ?_, ?_⟩
      · rw [hstep]
        show [k n (runLoop k b t n X0).X] = _
        rw [hsub, hXn, hnb]
        rfl
      · rw [hstep]
        show (runLoop k b t n X0).metrics = _
        omega
      · rw [hstep]
        show 0 = (n + 1 - b - 1) % t
        have : n + 1 - b - 1 = 0 := by omega
        simp [this]
      · rw [hstep]
        show (runLoop k b t n X0).trace.length = _
        have : n + 1 - b - 1 = 0 := by omega
        simp [h4, this]

end LoopLemmas

/-! ## The welford streaming accumulator

The `welford` class lives in the external `sampling_tools` module, which is
not among the sources; only its call sites (`welford(X)`, `.update(X)`,
`.get_mean()`, `.get_var()`) appear in the notebooks. -/

/-- Modelled from the spec: the `welford` streaming accumulator of the
missing `sampling_tools` module, "numerically stable running mean/variance
estimator" with state "{count n, running mean, running sum-of-squared-
deviations M2}"; construction `welford(X)` seeds the accumulator with the
first sample so that "after `n` updates, `mean` equals the arithmetic mean
of all `n` inputs". -/
structure welford (ι : Type*) where
  n : ℕ
  mean : ι → ℝ
  M2 : ι → ℝ

/-- Modelled from the spec: `welford(X)` seeds the accumulator with one
incorporated sample. -/
def welford.init {ι : Type*} (X : ι → ℝ) : welford ι :=
  ⟨1, X, 0⟩

/-- Modelled from the spec: `update(sample)` incorporates one new
observation by the Welford recurrence. -/
noncomputable def welford.update {ι : Type*} (w : welford ι) (x : ι → ℝ) :
    welford ι :=
  let n' := w.n + 1
  let mean' := w.mean + ((n' : ℝ))⁻¹ • (x - w.mean)
  ⟨n', mean', w.M2 + (x - w.mean) * (x - mean')⟩

/-- The accumulator produced by seeding with the first input of a list and
updating with the rest (`none` when there is no input at all). -/
noncomputable def welford.ofInputs {ι : Type*} :
    List (ι → ℝ) → Option (welford ι)
  | [] => none
  | x :: xs => some (xs.foldl welford.update (welford.init x))

theorem welford.foldl_n {ι : Type*} (l : List (ι → ℝ)) :
    ∀ w : welford ι, (l.foldl welford.update w).n = w.n + l.length := by
  induction l with
  | nil => intro w; rfl
  | cons x xs ih =>
    intro w
    have : (welford.update w x).n = w.n + 1 := rfl
    simp only [List.foldl_cons, ih, this, List.length_cons]
    omega

theorem welford.ofInputs_n {ι : Type*} (l : List (ι → ℝ)) (hl : l ≠ []) :
    (welford.ofInputs l).map welford.n = some l.length := by
  match l with
  | [] => exact absurd rfl hl
  | x :: xs =>
    have h1 : welford.ofInputs (x :: xs)
        = some (xs.foldl welford.update (welford.init x)) := rfl
    rw [h1]
    simp [welford.foldl_n, welford.init, Nat.add_comm]

/-! ## The likelihood, prior and posterior oracles

Shared by both notebooks (the MYULA notebook passes `A`, `AT` explicitly
to its lambdas, the SK-ROCK notebook captures them; the computed values
are identical).  The external collaborators are parameters: the blur
operator pair `A`/`AT`, the spectral norm `AAT_norm` returned by
`blur_operators`, the total-variation value `tvGrad = tv ∘ Grad_Image`,
and the proximal solver `chamb x lam maxIter` standing for
`chambolle_prox_TV(x, {'lambda': lam, 'MaxIter': maxIter})`. -/

/-- Source: `f = lambda x,A : (torch.linalg.matrix_norm(y-A(x), ord='fro')**2.0)/(2.0*sigma**2)`
(the squared Frobenius norm is the sum of squared entries). -/
noncomputable def f {ι : Type*} [Fintype ι] (A : (ι → ℝ) → ι → ℝ)
    (y : ι → ℝ) (sigma : ℝ) (x : ι → ℝ) : ℝ :=
  (∑ i, (y i - A x i) ^ 2) / (2 * sigma ^ 2)

/-- Source: `gradf = lambda x,A,AT : AT(A(x)-y)/sigma**2`. -/
noncomputable def gradf {ι : Type*} (A AT : (ι → ℝ) → ι → ℝ) (y : ι → ℝ)
    (sigma : ℝ) (x : ι → ℝ) : ι → ℝ :=
  fun i => AT (A x - y) i / sigma ^ 2

/-- Source: `L_y = AAT_norm/(sigma**2)`. -/
noncomputable def L_y (AAT_norm sigma : ℝ) : ℝ :=
  AAT_norm / sigma ^ 2

/-- Source: `g_fun_theta = lambda x : theta*tv(Grad_Image(x))`. -/
noncomputable def g_fun_theta {ι : Type*} (tvGrad : (ι → ℝ) → ℝ)
    (theta : ℝ) (x : ι → ℝ) : ℝ :=
  theta * tvGrad x

/-- Source: `lambda_prox = 1/L_y`. -/
noncomputable def lambda_prox (Ly : ℝ) : ℝ := 1 / Ly

/-- Source: `lambd_frac = 0.99`. -/
noncomputable def lambd_frac : ℝ := 0.99

/-- Source: `lambd = lambda_prox*lambd_frac`. -/
noncomputable def lambd (Ly : ℝ) : ℝ := lambda_prox Ly * lambd_frac

/-- Source: `proxg = lambda x: chambolle_prox_TV(x,{'lambda' : theta*lambd, 'MaxIter' : 25})`. -/
noncomputable def proxg {ι : Type*} (chamb : (ι → ℝ) → ℝ → ℕ → ι → ℝ)
    (theta Ly : ℝ) (x : ι → ℝ) : ι → ℝ :=
  chamb x (theta * lambd Ly) 25

/-- Source: `gradg = lambda x: (x -proxg(x))/lambd`. -/
noncomputable def gradg {ι : Type*} (chamb : (ι → ℝ) → ℝ → ℕ → ι → ℝ)
    (theta Ly : ℝ) (x : ι → ℝ) : ι → ℝ :=
  fun i => (x - proxg chamb theta Ly x) i / lambd Ly

/-- Source: `logPi = lambda z: (- f(z,A) - g_fun_theta(z))`
(`log_pi` in the SK-ROCK notebook, defined identically). -/
noncomputable def logPi {ι : Type*} [Fintype ι] (A : (ι → ℝ) → ι → ℝ)
    (y : ι → ℝ) (sigma : ℝ) (tvGrad : (ι → ℝ) → ℝ) (theta : ℝ)
    (z : ι → ℝ) : ℝ :=
  - f A y sigma z - g_fun_theta tvGrad theta z

/-- Source: `grad_f_g = lambda x: gradf(x,A,AT) + gradg(x)`. -/
noncomputable def grad_f_g {ι : Type*} (A AT : (ι → ℝ) → ι → ℝ)
    (y : ι → ℝ) (sigma : ℝ) (chamb : (ι → ℝ) → ℝ → ℕ → ι → ℝ)
    (theta Ly : ℝ) (x : ι → ℝ) : ι → ℝ :=
  gradf A AT y sigma x + gradg chamb theta Ly x

/-- Source: `L_g = 1/lambd`. -/
noncomputable def L_g (Ly : ℝ) : ℝ := 1 / lambd Ly

/-- Source: `L = L_y+L_g`. -/
noncomputable def L (Ly : ℝ) : ℝ := Ly + L_g Ly

/-- Source: `delta = 1/L`. -/
noncomputable def delta (Ly : ℝ) : ℝ := 1 / L Ly

/-- Source: `def ULA_kernel(X, delta): return X - delta * grad_f_g(X) + math.sqrt(2*delta) * torch.randn_like(X)`;
the fresh standard-normal draw is the explicit argument `Z`. -/
noncomputable def ULA_kernel {ι : Type*} (A AT : (ι → ℝ) → ι → ℝ)
    (y : ι → ℝ) (sigma : ℝ) (chamb : (ι → ℝ) → ℝ → ℕ → ι → ℝ)
    (theta Ly : ℝ) (X : ι → ℝ) (delta : ℝ) (Z : ι → ℝ) : ι → ℝ :=
  X - delta • grad_f_g A AT y sigma chamb theta Ly X
    + Real.sqrt (2 * delta) • Z

/-- A Langevin step as a function of an already-computed gradient value
`g`: the kernel factors through exactly one evaluation of the posterior
gradient oracle. -/
noncomputable def langevin_step {ι : Type*} (X : ι → ℝ) (delta : ℝ)
    (g Z : ι → ℝ) : ι → ℝ :=
  X - delta • g + Real.sqrt (2 * delta) • Z

/-! ## The SK-ROCK kernel (`SKROCK_kernel` in the SK-ROCK notebook) -/

/-- Numpy's `np.arccosh`: the real inverse hyperbolic cosine,
`arccosh x = log (x + sqrt (x² - 1))` for `x ≥ 1`. -/
noncomputable def arccosh (x : ℝ) : ℝ :=
  Real.log (x + Real.sqrt (x ^ 2 - 1))

/-- Source: `T_s = lambda s,x: np.cosh(s*np.arccosh(x))` — the first-kind
Chebyshev function used by the kernel. -/
noncomputable def T_s (s : ℕ) (x : ℝ) : ℝ :=
  Real.cosh (s * arccosh x)

/-- Source: `T_prime_s = lambda s,x: s*np.sinh(s*np.arccosh(x))/np.sqrt(x**2 -1)`. -/
noncomputable def T_prime_s (s : ℕ) (x : ℝ) : ℝ :=
  s * Real.sinh (s * arccosh x) / Real.sqrt (x ^ 2 - 1)

/-- Source: `denNStag=(2-(4/3)*eta)`; `rhoSKROCK = ((nStages - 0.5)**2) * denNStag - 1.5`
(the stiffness ratio `ℓ_s`). -/
noncomputable def rhoSKROCK (nStages : ℕ) (eta : ℝ) : ℝ :=
  ((nStages : ℝ) - 0.5) ^ 2 * (2 - (4 / 3) * eta) - 1.5

/-- Source: `dtSKROCK = dt_perc*rhoSKROCK/Lipschitz_U` (the step size `δ`). -/
noncomputable def dtSKROCK (nStages : ℕ) (eta dt_perc Lipschitz_U : ℝ) : ℝ :=
  dt_perc * rhoSKROCK nStages eta / Lipschitz_U

/-- Source: `w0=1 + eta/(nStages**2)` (the parameter `ω₀`). -/
noncomputable def w0 (nStages : ℕ) (eta : ℝ) : ℝ :=
  1 + eta / (nStages : ℝ) ^ 2

/-- Source: `w1=T_s(nStages,w0)/T_prime_s(nStages,w0)` (the parameter `ω₁`). -/
noncomputable def w1 (nStages : ℕ) (eta : ℝ) : ℝ :=
  T_s nStages (w0 nStages eta) / T_prime_s nStages (w0 nStages eta)

/-- One inner SK-ROCK stage `js ∈ {2,…,nStages}` of the source loop,
acting on the pair `(Xts, XtsMinus2)`:

```
mu=2*w1*T_s(js-1,w0)/T_s(js,w0); nu=2*w0*T_s(js-1,w0)/T_s(js,w0); kappa=1-nu
Xts = -mu*dtSKROCK*gradU(Xts) + nu*Xts + kappa*XtsMinus2
```

Note that the stage takes no noise argument: the diffusion term `Q` is not
redrawn inside the loop. -/
noncomputable def SKROCK_stage {ι : Type*} (om0 om1 dt : ℝ)
    (gradU : (ι → ℝ) → ι → ℝ) (p : (ι → ℝ) × (ι → ℝ)) (js : ℕ) :
    (ι → ℝ) × (ι → ℝ) :=
  let mu := 2 * om1 * T_s (js - 1) om0 / T_s js om0
  let nu := 2 * om0 * T_s (js - 1) om0 / T_s js om0
  let kappa := 1 - nu
  ((-(mu * dt)) • gradU p.1 + nu • p.1 + kappa • p.2, p.1)

/-- The body of `SKROCK_kernel` once the diffusion term
`Q=math.sqrt(2*dtSKROCK)*torch.randn_like(X)` has been formed: the first
internal iteration `Xts = X - mu1*dtSKROCK*gradU(X + nu1*Q) + kappa1*Q`
(with `mu1 = w1/w0`, `nu1 = nStages*w1/2`, `kappa1 = nStages*(w1/w0)`),
then the `for js in range(2,nStages+1)` loop, returning the final `Xts`. -/
noncomputable def SKROCK_iterates {ι : Type*} (Lipschitz_U : ℝ)
    (nStages : ℕ) (eta dt_perc : ℝ) (gradU : (ι → ℝ) → ι → ℝ)
    (X Q : ι → ℝ) : ι → ℝ :=
  let dt := dtSKROCK nStages eta dt_perc Lipschitz_U
  let om0 := w0 nStages eta
  let om1 := w1 nStages eta
  let mu1 := om1 / om0
  let nu1 := (nStages : ℝ) * om1 / 2
  let kappa1 := (nStages : ℝ) * (om1 / om0)
  let Xts := X - (mu1 * dt) • gradU (X + nu1 • Q) + kappa1 • Q
  ((List.range' 2 (nStages - 1)).foldl (SKROCK_stage om0 om1 dt gradU)
    (Xts, X)).1

/-- Source: `def SKROCK_kernel(X, Lipschitz_U, nStages, eta, dt_perc, gradU)`.
The fresh standard-normal draw is the explicit argument `Z`.  Python's
`math.sqrt` raises `ValueError` on a negative argument, so when
`2*dtSKROCK < 0` the transition faults instead of producing a state;
this is modelled by `none`. -/
noncomputable def SKROCK_kernel {ι : Type*} (X : ι → ℝ) (Lipschitz_U : ℝ)
    (nStages : ℕ) (eta dt_perc : ℝ) (gradU : (ι → ℝ) → ι → ℝ)
    (Z : ι → ℝ) : Option (ι → ℝ) :=
  if 2 * dtSKROCK nStages eta dt_perc Lipschitz_U < 0 then none
  else
    some (SKROCK_iterates Lipschitz_U nStages eta dt_perc gradU X
      (Real.sqrt (2 * dtSKROCK nStages eta dt_perc Lipschitz_U) • Z))

/-- The spec's stage coefficient `μ_j = 2ω₁T_{j-1}(ω₀)/T_j(ω₀)`. -/
noncomputable def muSpec (nStages : ℕ) (eta : ℝ) (j : ℕ) : ℝ :=
  2 * w1 nStages eta * T_s (j - 1) (w0 nStages eta) / T_s j (w0 nStages eta)

/-- The spec's stage coefficient `ν_j = 2ω₀T_{j-1}(ω₀)/T_j(ω₀)`. -/
noncomputable def nuSpec (nStages : ℕ) (eta : ℝ) (j : ℕ) : ℝ :=
  2 * w0 nStages eta * T_s (j - 1) (w0 nStages eta) / T_s j (w0 nStages eta)

/-- The spec's stage coefficient `κ_j = 1 - ν_j`. -/
noncomputable def kappaSpec (nStages : ℕ) (eta : ℝ) (j : ℕ) : ℝ :=
  1 - nuSpec nStages eta j

/-- The stage recursion as stated in the spec: `K_0 = X`,
`K_1 = X - μ₁δ·∇U(X + ν₁Q) + κ₁Q` with `μ₁ = ω₁/ω₀`, `ν₁ = s·ω₁/2`,
`κ₁ = s·ω₁/ω₀`, and for `j ≥ 2`
`K_j = -μ_jδ·∇U(K_{j-1}) + ν_jK_{j-1} + κ_jK_{j-2}`. -/
noncomputable def Kstage {ι : Type*} (Lipschitz_U : ℝ) (nStages : ℕ)
    (eta dt_perc : ℝ) (gradU : (ι → ℝ) → ι → ℝ) (X Q : ι → ℝ) :
    ℕ → ι → ℝ
  | 0 => X
  | 1 =>
    X - (w1 nStages eta / w0 nStages eta
          * dtSKROCK nStages eta dt_perc Lipschitz_U) •
        gradU (X + ((nStages : ℝ) * w1 nStages eta / 2) • Q)
      + ((nStages : ℝ) * (w1 nStages eta / w0 nStages eta)) • Q
  | j + 2 =>
    (-(muSpec nStages eta (j + 2)
        * dtSKROCK nStages eta dt_perc Lipschitz_U)) •
      gradU (Kstage Lipschitz_U nStages eta dt_perc gradU X Q (j + 1))
      + nuSpec nStages eta (j + 2) •
          Kstage Lipschitz_U nStages eta dt_perc gradU X Q (j + 1)
      + kappaSpec nStages eta (j + 2) •
          Kstage Lipschitz_U nStages eta dt_perc gradU X Q j

theorem SKROCK_fold {ι : Type*} (Lu : ℝ) (s : ℕ) (eta dtp : ℝ)
    (gradU : (ι → ℝ) → ι → ℝ) (X Q : ι → ℝ) :
    ∀ n, (List.range' 2 n).foldl
        (SKROCK_stage (w0 s eta) (w1 s eta) (dtSKROCK s eta dtp Lu) gradU)
        (Kstage Lu s eta dtp gradU X Q 1, Kstage Lu s eta dtp gradU X Q 0)
      = (Kstage Lu s eta dtp gradU X Q (n + 1),
         Kstage Lu s eta dtp gradU X Q n) := by
  intro n
  induction n with
  | zero => rfl
  | succ n ih =>
    rw [List.range'_1_concat, List.foldl_append, ih, List.foldl_cons,
      List.foldl_nil]
    have h2n : 2 + n = n + 2 := by omega
    rw [h2n]
    show (_, _) = (_, _)
    refine Prod.ext ?_ rfl
    show (-(2 * w1 s eta * T_s (n + 2 - 1) (w0 s eta) / T_s (n + 2) (w0 s eta)
        * dtSKROCK s eta dtp Lu)) •
          gradU (Kstage Lu s eta dtp gradU X Q (n + 1))
        + (2 * w0 s eta * T_s (n + 2 - 1) (w0 s eta) / T_s (n + 2) (w0 s eta)) •
            Kstage Lu s eta dtp gradU X Q (n + 1)
        + (1 - 2 * w0 s eta * T_s (n + 2 - 1) (w0 s eta)
            / T_s (n + 2) (w0 s eta)) •
            Kstage Lu s eta dtp gradU X Q n
      = Kstage Lu s eta dtp gradU X Q (n + 2)
    rfl

/-- For `s ≥ 2` and damping `η < 1` the stiffness ratio
`ℓ_s = (s-0.5)²(2-4η/3) - 1.5` is positive. -/
theorem rhoSKROCK_pos (s : ℕ) (eta : ℝ) (hs : 2 ≤ s) (h2 : eta < 1) :
    0 < rhoSKROCK s eta := by
  unfold rhoSKROCK
  have hcast : (2 : ℝ) ≤ (s : ℝ) := by exact_mod_cast hs
  have ha : (1.5 : ℝ) ≤ (s : ℝ) - 0.5 := by linarith
  have ha2 : (2.25 : ℝ) ≤ ((s : ℝ) - 0.5) ^ 2 := by nlinarith
  have hb : (2 : ℝ) / 3 < 2 - (4 / 3) * eta := by linarith
  nlinarith

/-- For `s ≥ 2`, valid damping and step fraction, and a positive
Lipschitz constant, the computed step size is positive. -/
theorem dtSKROCK_pos (s : ℕ) (eta dtp Lu : ℝ) (hs : 2 ≤ s)
    (h2 : eta < 1) (ha : 0 < dtp) (hL : 0 < Lu) :
    0 < dtSKROCK s eta dtp Lu :=
  div_pos (mul_pos ha (rhoSKROCK_pos s eta hs h2)) hL

/-- For `s = 1` the stiffness ratio is negative whatever the damping
`η ∈ (0,1)`: `ℓ₁ = (2-4η/3)/4 - 1.5 < -1`. -/
theorem rhoSKROCK_one_neg (eta : ℝ) (h1 : 0 < eta) :
    rhoSKROCK 1 eta < 0 := by
  unfold rhoSKROCK
  push_cast
  nlinarith

/-- For `s = 1` the computed step size is negative. -/
theorem dtSKROCK_one_neg (eta dtp Lu : ℝ) (h1 : 0 < eta) (ha : 0 < dtp)
    (hL : 0 < Lu) : dtSKROCK 1 eta dtp Lu < 0 :=
  div_neg_of_neg_of_pos (mul_neg_of_pos_of_neg ha (rhoSKROCK_one_neg eta h1)) hL

/-- The source's stage loop computes the spec's stage recursion: when the
kernel runs at least one stage (`s ≥ 1`), its internal iterations produce
`K_s`. -/
theorem SKROCK_iterates_eq_Kstage {ι : Type*} (Lu : ℝ) (s : ℕ)
    (eta dtp : ℝ) (gradU : (ι → ℝ) → ι → ℝ) (X Q : ι → ℝ) (hs : 1 ≤ s) :
    SKROCK_iterates Lu s eta dtp gradU X Q
      = Kstage Lu s eta dtp gradU X Q s := by
  unfold SKROCK_iterates
  show ((List.range' 2 (s - 1)).foldl
      (SKROCK_stage (w0 s eta) (w1 s eta) (dtSKROCK s eta dtp Lu) gradU)
      (Kstage Lu s eta dtp gradU X Q 1,
       Kstage Lu s eta dtp gradU X Q 0)).1
    = Kstage Lu s eta dtp gradU X Q s
  rw [SKROCK_fold]
  have hsub : s - 1 + 1 = s := by omega
  rw [hsub]

/-! ## The claims -/

/-- C1 (amended: stage counts `s ≥ 2`; as stated the claim also covers
`s = 1`, where the computed step size `δ = α·ℓ₁/L` is negative and
`math.sqrt(2δ)` raises a domain error, see
`SKROCK_kernel_one_stage_returns_no_state`): for every state `X`, stage
count `s ≥ 2`, damping `η ∈ (0,1)`, step fraction `α ∈ (0,1)` and
Lipschitz constant `L > 0`, the SK-ROCK transition computes the stiffness
ratio `ℓ_s = (s-0.5)²(2-4η/3) - 1.5` (`rhoSKROCK`), the step size
`δ = α·ℓ_s/L` (`dtSKROCK`), the coefficients `ω₀ = 1+η/s²` (`w0`) and
`ω₁ = T_s(ω₀)/T_s'(ω₀)` (`w1`, with `T_s(x) = cosh(s·arccosh x)` and
`T_s'(x) = s·sinh(s·arccosh x)/√(x²-1)`), then runs the stage recursion
`K_j = -μ_jδ·∇U(K_{j-1}) + ν_jK_{j-1} + κ_jK_{j-2}` with
`μ_j = 2ω₁T_{j-1}(ω₀)/T_j(ω₀)`, `ν_j = 2ω₀T_{j-1}(ω₀)/T_j(ω₀)`,
`κ_j = 1-ν_j` and `K_0 := X` (`Kstage`, `muSpec`, `nuSpec`, `kappaSpec`),
and returns `K_s`. -/
theorem SKROCK_kernel_returns_stage_recursion {ι : Type*} (X : ι → ℝ)
    (Lu : ℝ) (s : ℕ) (eta dtp : ℝ) (gradU : (ι → ℝ) → ι → ℝ) (Z : ι → ℝ)
    (hs : 2 ≤ s) (he1 : 0 < eta) (he2 : eta < 1) (ha1 : 0 < dtp)
    (ha2 : dtp < 1) (hL : 0 < Lu) :
    SKROCK_kernel X Lu s eta dtp gradU Z
      = some (Kstage Lu s eta dtp gradU X
          (Real.sqrt (2 * dtSKROCK s eta dtp Lu) • Z) s) := by
  have hdt : 0 < dtSKROCK s eta dtp Lu :=
    dtSKROCK_pos s eta dtp Lu hs he2 ha1 hL
  unfold SKROCK_kernel
  rw [if_neg (by push_neg; linarith)]
  exact congrArg some
    (SKROCK_iterates_eq_Kstage Lu s eta dtp gradU X _ (by omega))

/-- C1 witness: the theorem applied at `s = 2`, `η = 1/2`, `α = 1/2`,
`L = 1`, `∇U = id`, `X = Z = 0`. -/
theorem SKROCK_kernel_returns_stage_recursion_witness :
    SKROCK_kernel (fun _ : Unit => (0 : ℝ)) 1 2 (1/2) (1/2)
        (fun v : Unit → ℝ => v) (fun _ : Unit => (0 : ℝ))
      = some (Kstage 1 2 (1/2) (1/2) (fun v : Unit → ℝ => v)
          (fun _ : Unit => (0 : ℝ))
          (Real.sqrt (2 * dtSKROCK 2 (1/2) (1/2) 1)
            • (fun _ : Unit => (0 : ℝ))) 2) :=
  SKROCK_kernel_returns_stage_recursion (fun _ => 0) 1 2 (1/2) (1/2)
    (fun v => v) (fun _ => 0) (by norm_num) (by norm_num) (by norm_num)
    (by norm_num) (by norm_num) (by norm_num)

/-- C1 counterexample to the claim as stated (which quantifies over every
stage count `s ≥ 1`): at `s = 1`, `η = 1/4`, `α = 1/2`, `L = 1` — a
configuration the claim's quantifiers admit — the kernel computes
`ℓ₁ = -13/12 < 0`, hence the negative step size `δ = -13/24`, and
`math.sqrt(2δ)` raises `ValueError`: the transition returns no state at
all, in particular not `K_1`. -/
theorem SKROCK_kernel_one_stage_returns_no_state :
    SKROCK_kernel (fun _ : Unit => (0 : ℝ)) 1 1 (1/4) (1/2)
        (fun v => v) (fun _ => 0) = none := by
  have h : 2 * dtSKROCK 1 ((1 : ℝ)/4) (1/2) 1 < 0 := by
    unfold dtSKROCK rhoSKROCK
    push_cast
    norm_num
  unfold SKROCK_kernel
  rw [if_pos h]

/-- C2: the MYULA transition is
`X' = X + δ·∇log p(X) + √(2δ)·Z` with
`∇log p(X) = -∇f(X) - θ·∇g_λ(X)`, where `∇g_λ(X)` is the Moreau-Yosida
prior gradient `(X - prox_g^{θλ}(X))/(θλ)` (so that
`θ·∇g_λ = (X - proxg X)/λ = gradg X`, exactly as the SK-ROCK notebook's
own text labels `gradg`: `θ∇g^λ(x) = λ⁻¹(x - prox_g^{θλ}(x))`); the
transition factors through exactly one evaluation of the posterior
gradient oracle `grad_f_g` (`langevin_step`), and the driver chooses
`δ = 1/L` with `L = L_y + 1/λ`. -/
theorem ULA_kernel_is_langevin_update {ι : Type*}
    (A AT : (ι → ℝ) → ι → ℝ) (y : ι → ℝ) (sigma : ℝ)
    (chamb : (ι → ℝ) → ℝ → ℕ → ι → ℝ) (theta Ly : ℝ)
    (htheta : 0 < theta) (X Z : ι → ℝ) :
    ULA_kernel A AT y sigma chamb theta Ly X (delta Ly) Z
        = X + delta Ly •
            (-(gradf A AT y sigma X)
              - theta • (fun i =>
                  (X i - proxg chamb theta Ly X i) / (theta * lambd Ly)))
          + Real.sqrt (2 * delta Ly) • Z
    ∧ ULA_kernel A AT y sigma chamb theta Ly X (delta Ly) Z
        = langevin_step X (delta Ly)
            (grad_f_g A AT y sigma chamb theta Ly X) Z
    ∧ delta Ly = 1 / (Ly + 1 / lambd Ly) := by
  refine ⟨?_, rfl, rfl⟩
  funext i
  have hkey : theta * ((X i - proxg chamb theta Ly X i) / (theta * lambd Ly))
      = (X i - proxg chamb theta Ly X i) / lambd Ly := by
    rcases eq_or_ne (lambd Ly) 0 with h | h
    · simp [h]
    · field_simp
      ring
  simp only [ULA_kernel, grad_f_g, gradg, langevin_step, Pi.add_apply,
    Pi.sub_apply, Pi.smul_apply, Pi.neg_apply, smul_eq_mul]
  rw [hkey]
  ring

/-- C2 witness: the theorem applied with `A = AT = id`, `y = 0`,
`σ = θ = L_y = 1`, an identity proximal solver, and `X = Z = 0`. -/
theorem ULA_kernel_is_langevin_update_witness :
    ULA_kernel (fun v : Unit → ℝ => v) (fun v => v) (fun _ => 0) 1
        (fun x _ _ => x) 1 1 (fun _ => 0) (delta 1) (fun _ => 0)
      = langevin_step (fun _ => 0) (delta 1)
          (grad_f_g (fun v => v) (fun v => v) (fun _ => 0) 1
            (fun x _ _ => x) 1 1 (fun _ => 0)) (fun _ => 0) :=
  (ULA_kernel_is_langevin_update (fun v => v) (fun v => v) (fun _ => 0) 1
    (fun x _ _ => x) 1 1 (by norm_num) (fun _ => 0) (fun _ => 0)).2.1

/-- C3 (amended: the thinning step is `⌊maxit/n_samples⌋` as claimed, but
the retained trace length is `⌊(maxit - burnin - 1)/thinning_step⌋`, which
falls short of `target_sample_count` by about `burnin/thinning_step` —
at the spec's own example it is `47`, not `50 ± 1`, see
`trace_length_not_within_one`). -/
theorem thinning_step_and_trace_length {α : Type*} (k : ℕ → α → α)
    (X0 : α) (maxit burnin n_samples : ℕ) (hb : burnin < maxit)
    (ht : 1 ≤ maxit / n_samples) :
    thinning_step maxit n_samples = maxit / n_samples
    ∧ (runLoop k burnin (thinning_step maxit n_samples) maxit X0).trace.length
        = (maxit - burnin - 1) / (maxit / n_samples) := by
  have he : thinning_step maxit n_samples = maxit / n_samples := by
    unfold thinning_step
    rw [Nat.floor_div_nat, Nat.floor_natCast]
  refine ⟨he, ?_⟩
  rw [he]
  exact (runLoop_spec k burnin (maxit / n_samples) X0 ht maxit hb).2.2.2

/-- C3 witness: the theorem applied at the spec's example run
configuration (`maxit = 1000`, `burnin = 50`, `n_samples = 50`). -/
theorem thinning_step_and_trace_length_witness :
    thinning_step 1000 50 = 1000 / 50
    ∧ (runLoop (fun _ (x : ℕ) => x) 50 (thinning_step 1000 50) 1000 0).trace.length
        = (1000 - 50 - 1) / (1000 / 50) :=
  thinning_step_and_trace_length (fun _ x => x) 0 1000 50 50
    (by norm_num) (by norm_num)

/-- C3 counterexample: at the spec's own example (`total_iterations =
1000`, `burnin = 50`, `target_sample_count = 50`) the thinning step is
`20` as claimed, but the retained trace has `47` entries, which is not
within `± 1` of `50`. -/
theorem trace_length_not_within_one :
    thinning_step 1000 50 = 20
    ∧ (runLoop (fun _ (x : ℕ) => x) 50 20 1000 0).trace.length = 47
    ∧ ¬ (50 - 1 ≤ 47 ∧ 47 ≤ 50 + 1) := by
  refine ⟨?_, ?_, by norm_num⟩
  · unfold thinning_step
    rw [Nat.floor_div_nat, Nat.floor_natCast]
  · have h := (runLoop_spec (fun _ (x : ℕ) => x) 50 20 0 (by norm_num)
      1000 (by norm_num)).2.2.2
    rw [h]

/-- C4 (amended: with stage count `s = 1` the accelerated kernel does
not reduce to the single-evaluation update at all: for every damping
`η ∈ (0,1)`, step fraction `α ∈ (0,1)` and `L > 0`, the step size implied
by `ℓ₁ = (2-4η/3)/4 - 1.5 < 0` is negative, `math.sqrt(2δ)` is a domain
error, and the transition faults instead of producing any state — whereas
the single-evaluation kernel `ULA_kernel` always returns a state). -/
theorem SKROCK_one_stage_does_not_reduce_to_ULA {ι : Type*} (X : ι → ℝ)
    (Lu eta dtp : ℝ) (gradU : (ι → ℝ) → ι → ℝ) (Z : ι → ℝ)
    (he : 0 < eta) (ha : 0 < dtp) (hL : 0 < Lu) :
    SKROCK_kernel X Lu 1 eta dtp gradU Z = none
    ∧ dtSKROCK 1 eta dtp Lu < 0 := by
  have hdt := dtSKROCK_one_neg eta dtp Lu he ha hL
  refine ⟨?_, hdt⟩
  unfold SKROCK_kernel
  rw [if_pos (by linarith)]

/-- C4 witness: the theorem applied at `η = 1/3`, `α = 1/2`, `L = 1`. -/
theorem SKROCK_one_stage_does_not_reduce_to_ULA_witness :
    SKROCK_kernel (fun _ : Unit => (0 : ℝ)) 1 1 (1/3) (1/2)
        (fun v => v) (fun _ => 0) = none
    ∧ dtSKROCK 1 (1/3) (1/2) 1 < 0 :=
  SKROCK_one_stage_does_not_reduce_to_ULA (fun _ => 0) 1 (1/3) (1/2)
    (fun v => v) (fun _ => 0) (by norm_num) (by norm_num) (by norm_num)

/-- C4 counterexample to the claimed reduction: a concrete `s = 1`
transition (`η = 1/2`, `α = 3/4`, `L = 2`, `∇U v = v + v`) returns no
state (`math.sqrt` of the negative `2δ = -7/8` faults), so it cannot
equal any single-evaluation Langevin update, under any step-size
rescaling. -/
theorem SKROCK_one_stage_faults_concretely :
    SKROCK_kernel (fun _ : Unit => (1 : ℝ)) 2 1 (1/2) (3/4)
        (fun v => v + v) (fun _ => 1) = none := by
  have h : 2 * dtSKROCK 1 ((1 : ℝ)/2) (3/4) 2 < 0 := by
    unfold dtSKROCK rhoSKROCK
    push_cast
    norm_num
  unfold SKROCK_kernel
  rw [if_pos h]

/-- C5 (amended: the sampling loops contain no finiteness check and never
halt early: whatever value the chain takes after a post-burn-in
iteration — non-finite or not — that state is incorporated into the
streaming accumulators, and the loop still appends a metric entry at every
strictly-post-burn-in iteration; no offending iteration index is
reported). -/
theorem loop_never_halts {α : Type*} (k : ℕ → α → α) (X0 : α)
    (b t maxit i : ℕ) (ht : 1 ≤ t) (hb : b < maxit) (hi1 : b ≤ i)
    (hi2 : i < maxit) :
    chainX k X0 (i + 1) ∈ (runLoop k b t maxit X0).welf
    ∧ (runLoop k b t maxit X0).metrics = maxit - b - 1 := by
  obtain ⟨hw, hm, -, -⟩ := runLoop_spec k b t X0 ht maxit hb
  refine ⟨?_, hm⟩
  rw [hw]
  refine List.mem_map.2 ⟨i, ?_, rfl⟩
  rw [List.mem_range'_1]
  omega

/-- C5 witness: the theorem applied at a small concrete run. -/
theorem loop_never_halts_witness :
    chainX (fun i (x : ℕ) => x + i) 0 (2 + 1)
        ∈ (runLoop (fun i (x : ℕ) => x + i) 1 1 3 0).welf
    ∧ (runLoop (fun i (x : ℕ) => x + i) 1 1 3 0).metrics = 3 - 1 - 1 :=
  loop_never_halts (fun i x => x + i) 0 1 1 3 2 (by norm_num)
    (by norm_num) (by norm_num) (by norm_num)

/-- C5 counterexample: a concrete run in which the kernel produces a
degenerate state from iteration 1 on (marker value `999`, standing for a
non-finite value — the loop is value-agnostic, so the marker follows
exactly the path a NaN would): the run does not halt at iteration 1 and
reports nothing; it performs all 4 iterations, appends 3 metric entries,
and passes the degenerate state to the accumulator and the thinned trace
at iterations 1, 2 and 3. -/
theorem degenerate_state_propagates :
    (runLoop (fun i _ => if 1 ≤ i then 999 else 0) 0 1 4 (0 : ℕ)).welf
        = [0, 999, 999, 999]
    ∧ (runLoop (fun i _ => if 1 ≤ i then 999 else 0) 0 1 4 (0 : ℕ)).metrics = 3
    ∧ (runLoop (fun i _ => if 1 ≤ i then 999 else 0) 0 1 4 (0 : ℕ)).trace
        = [999, 999, 999] :=
  ⟨rfl, rfl, rfl⟩

/-- C6: the per-iteration diagnostic value `logPi z` is computed with the
exact nonsmooth total-variation penalty, `-f(z) - θ·tv(Grad_Image z)`
(the oracle `tvGrad`), never through the proximal solver; the sampling
gradient `grad_f_g z` is `∇f(z)` plus the smoothed (Moreau-Yosida) prior
gradient `(z - chambolle_prox_TV(z, θλ, 25))/λ`, never the exact penalty:
each side depends only on its own oracle. -/
theorem logPi_exact_grad_smoothed {ι : Type*} [Fintype ι]
    (A AT : (ι → ℝ) → ι → ℝ) (y : ι → ℝ) (sigma : ℝ)
    (tvGrad : (ι → ℝ) → ℝ) (chamb : (ι → ℝ) → ℝ → ℕ → ι → ℝ)
    (theta Ly : ℝ) (z : ι → ℝ) :
    logPi A y sigma tvGrad theta z
        = -((∑ i, (y i - A z i) ^ 2) / (2 * sigma ^ 2)) - theta * tvGrad z
    ∧ grad_f_g A AT y sigma chamb theta Ly z
        = gradf A AT y sigma z
          + (fun i => (z - chamb z (theta * lambd Ly) 25) i / lambd Ly) :=
  ⟨rfl, rfl⟩

/-- C7: the smoothed-prior oracle returns
`gradg X = (X - prox_g^{θλ}(X))/λ` where the proximal operator is the
external solver `chambolle_prox_TV` run with smoothing parameter `θλ` and
a fixed budget of `25` inner iterations, and the smoothing scale is
`λ = 0.99/L_y` with `0.99 ∈ (0,1)`. -/
theorem gradg_is_moreau_yosida_gradient {ι : Type*}
    (chamb : (ι → ℝ) → ℝ → ℕ → ι → ℝ) (theta Ly : ℝ) (X : ι → ℝ) :
    gradg chamb theta Ly X
        = (fun i => (X - chamb X (theta * lambd Ly) 25) i / lambd Ly)
    ∧ lambd Ly = 0.99 / Ly ∧ (0 : ℝ) < 0.99 ∧ (0.99 : ℝ) < 1 := by
  refine ⟨rfl, ?_, by norm_num, by norm_num⟩
  unfold lambd lambda_prox lambd_frac
  ring

/-- C8: the gradient oracle computes `∇f(X) = Aᵗ(A(X) - y)/σ²` with the
observation `y` fixed at construction, and the likelihood Lipschitz
constant is `L_y = ‖AAᵗ‖₂/σ²` (with `AAT_norm` the spectral norm returned
by `blur_operators`); as a pure function of its arguments the evaluation
is deterministic and mutates no state. -/
theorem gradf_formula_and_lipschitz {ι : Type*} (A AT : (ι → ℝ) → ι → ℝ)
    (y : ι → ℝ) (sigma AAT_norm : ℝ) (X : ι → ℝ) :
    gradf A AT y sigma X = (sigma ^ 2)⁻¹ • AT (A X - y)
    ∧ L_y AAT_norm sigma = AAT_norm / sigma ^ 2 := by
  refine ⟨?_, rfl⟩
  funext i
  simp [gradf, div_eq_inv_mul]

/-- C9: whenever the noise scale is well defined (`2δ ≥ 0`, i.e. whenever
`math.sqrt` does not fault), each SK-ROCK transition draws exactly one
Gaussian noise array `Q = sqrt(2δ)·Z`, which enters only the first stage
`K₁ = X - μ₁δ·∇U(X + ν₁Q) + κ₁Q` with `μ₁ = ω₁/ω₀`, `ν₁ = s·ω₁/2`,
`κ₁ = s·ω₁/ω₀`; the inner stage step `SKROCK_stage` over which the
remaining recursion folds takes no noise argument, so `Q` is shared
across the whole recursion and never redrawn per stage. -/
theorem SKROCK_single_noise_draw {ι : Type*} (X : ι → ℝ) (Lu : ℝ)
    (s : ℕ) (eta dtp : ℝ) (gradU : (ι → ℝ) → ι → ℝ) (Z : ι → ℝ)
    (hdt : 0 ≤ 2 * dtSKROCK s eta dtp Lu) :
    SKROCK_kernel X Lu s eta dtp gradU Z
      = some (((List.range' 2 (s - 1)).foldl
          (SKROCK_stage (w0 s eta) (w1 s eta) (dtSKROCK s eta dtp Lu) gradU)
          (X - (w1 s eta / w0 s eta * dtSKROCK s eta dtp Lu) •
                gradU (X + ((s : ℝ) * w1 s eta / 2) •
                  (Real.sqrt (2 * dtSKROCK s eta dtp Lu) • Z))
              + ((s : ℝ) * (w1 s eta / w0 s eta)) •
                  (Real.sqrt (2 * dtSKROCK s eta dtp Lu) • Z),
           X)).1) := by
  unfold SKROCK_kernel
  rw [if_neg (not_lt.2 hdt)]
  rfl

/-- C9 witness: at `s = 2`, `η = 1/2`, `α = 1/2`, `L = 1` the noise scale
is well defined and the theorem applies, so the transition produces a
state. -/
theorem SKROCK_single_noise_draw_witness :
    0 ≤ 2 * dtSKROCK 2 (1/2) (1/2) 1
    ∧ SKROCK_kernel (fun _ : Unit => (1 : ℝ)) 1 2 (1/2) (1/2)
        (fun v => v) (fun _ => 1) ≠ none := by
  have h : (0 : ℝ) ≤ 2 * dtSKROCK 2 (1/2) (1/2) 1 := by
    unfold dtSKROCK rhoSKROCK
    push_cast
    norm_num
  refine ⟨h, ?_⟩
  rw [SKROCK_single_noise_draw (fun _ : Unit => (1 : ℝ)) 1 2 (1/2) (1/2)
    (fun v => v) (fun _ => 1) h]
  exact Option.some_ne_none _

/-- C10: at the iteration whose index equals the burn-in count the driver
seeds the welford accumulators with the current chain state (so the final
accumulator count over a MYULA run of `maxit` iterations is exactly
`maxit - burnin`), while recording no metric entry and no thinned-trace
entry at that iteration; metrics begin strictly after burn-in, so each
series ends with exactly `maxit - burnin - 1` entries.  (The `welford`
class itself is external `sampling_tools` code, modelled from the spec;
the four metric series are appended to together and are modelled by one
counter.) -/
theorem burnin_seeds_accumulator_only {ι : Type*}
    (k : ℕ → (ι → ℝ) → ι → ℝ) (X0 : ι → ℝ) (burnin thin maxit : ℕ)
    (ht : 1 ≤ thin) (hb : burnin < maxit) :
    (welford.ofInputs ((runLoop k burnin thin maxit X0).welf)).map welford.n
        = some (maxit - burnin)
    ∧ (runLoop k burnin thin maxit X0).metrics = maxit - burnin - 1
    ∧ (runLoop k burnin thin (burnin + 1) X0).welf
        = [chainX k X0 (burnin + 1)]
    ∧ (runLoop k burnin thin (burnin + 1) X0).metrics = 0
    ∧ (runLoop k burnin thin (burnin + 1) X0).trace = [] := by
  obtain ⟨hw, hm, -, -⟩ := runLoop_spec k burnin thin X0 ht maxit hb
  obtain ⟨hw1, hm1, -, htr1⟩ :=
    runLoop_spec k burnin thin X0 ht (burnin + 1) (by omega)
  have hlen : ((List.range' burnin (maxit - burnin)).map
      (fun i => chainX k X0 (i + 1))).length = maxit - burnin := by
    simp
  refine ⟨?_, hm, ?_, ?_, ?_⟩
  · rw [hw]
    have hne : (List.range' burnin (maxit - burnin)).map
        (fun i => chainX k X0 (i + 1)) ≠ [] := by
      intro hcon
      rw [hcon] at hlen
      simp at hlen
      omega
    rw [welford.ofInputs_n _ hne, hlen]
  · rw [hw1]
    have h1 : burnin + 1 - burnin = 1 := by omega
    rw [h1, List.range'_one]
    simp
  · rw [hm1]
    omega
  · have h0 : (runLoop k burnin thin (burnin + 1) X0).trace.length = 0 := by
      rw [htr1]
      have h1 : burnin + 1 - burnin - 1 = 0 := by omega
      rw [h1]
      exact Nat.zero_div thin
    exact List.length_eq_zero.1 h0

/-- C10 witness: the theorem applied at a small concrete run
(`burnin = 1`, `thin = 2`, `maxit = 4`, identity kernel). -/
theorem burnin_seeds_accumulator_only_witness :
    (welford.ofInputs ((runLoop (fun _ (x : Unit → ℝ) => x) 1 2 4
        (fun _ => 0)).welf)).map welford.n = some (4 - 1)
    ∧ (runLoop (fun _ (x : Unit → ℝ) => x) 1 2 4 (fun _ => 0)).metrics
        = 4 - 1 - 1
    ∧ (runLoop (fun _ (x : Unit → ℝ) => x) 1 2 (1 + 1) (fun _ => 0)).welf
        = [chainX (fun _ x => x) (fun _ => 0) (1 + 1)]
    ∧ (runLoop (fun _ (x : Unit → ℝ) => x) 1 2 (1 + 1) (fun _ => 0)).metrics
        = 0
    ∧ (runLoop (fun _ (x : Unit → ℝ) => x) 1 2 (1 + 1) (fun _ => 0)).trace
        = [] :=
  burnin_seeds_accumulator_only (fun _ x => x) (fun _ => 0) 1 2 4
    (by norm_num) (by norm_num)

end SamplingTutorials
